import Mathlib

/-!
Verification of the AgentScope Studio code base.

Part 1 embeds the TypeORM migration `AddMessageReplyForeignKey1730000000000`
(its `up` and `down` routines) as pure functions over an explicit database
state.  Part 2 embeds the avatar-selection logic of `AsAvatar`
(`hashString`, `getAvatarPathByName`, the resolution precedence) and the
`AsChat` transcript logic (`organizedReplies`, the auto-scroll effect and
the scroll handler).
-/

namespace Studio

/-! ## The database model for the migration

A message row as returned by
`SELECT id, run_id, msg, replyId FROM message_table ORDER BY id`.
The embedded `msg` payload is modelled post-JSON-parse: the fields the
migration reads (`role`, `name`, `timestamp`), each possibly absent.
A JavaScript falsy string (missing, or the empty string) falls back to the
default, mirroring `msgData.role || 'unknown'` etc.  The per-message call
`new Date().toISOString()` is modelled by a single `now` parameter. -/

structure MsgPayload where
  role : Option String
  name : Option String
  timestamp : Option String
deriving DecidableEq

structure MessageRow where
  id : String
  run_id : String
  msg : MsgPayload
  replyId : Option String
deriving DecidableEq

/-- A row of `reply_table` (also the in-progress record held in `replyMap`). -/
structure ReplyRec where
  replyId : String
  role : String
  name : String
  runId : String
  createdAt : String
  finishedAt : String
deriving DecidableEq

/-- Lexicographic comparison of two character-code sequences: the semantics
of JavaScript `<` / `>` on strings, one code unit at a time. -/
def codesLt : List Nat → List Nat → Bool
  | [], [] => false
  | [], _ :: _ => true
  | _ :: _, [] => false
  | a :: as, b :: bs => if a < b then true else if b < a then false else codesLt as bs

/-- JavaScript string comparison `a < b` (so `a > b` is `strLt b a`). -/
def strLt (a b : String) : Bool := codesLt (a.data.map Char.toNat) (b.data.map Char.toNat)

/-- JavaScript `s.toLowerCase()`, applied character by character. -/
def jsToLowerCase (s : String) : String := String.mk (s.data.map Char.toLower)

/-- JavaScript `s.slice(0, 2).toUpperCase()`. -/
def jsUpperFirst2 (s : String) : String := String.mk ((s.data.take 2).map Char.toUpper)

/-- JavaScript `x || d` on an optional string: missing and `""` are falsy. -/
def orDefault (o : Option String) (d : String) : String :=
  match o with
  | some s => if s = "" then d else s
  | none => d

/-- `message.replyId && message.replyId !== ''` from the migration. -/
def hasReplyId (m : MessageRow) : Bool :=
  match m.replyId with
  | some s => s != ""
  | none => false

/-- `const role = msgData.role || 'unknown'`. -/
def roleOf (m : MessageRow) : String := orDefault m.msg.role "unknown"

/-- `const name = msgData.name || role`. -/
def nameOf (m : MessageRow) : String := orDefault m.msg.name (roleOf m)

/-- `const timestamp = msgData.timestamp || new Date().toISOString()`. -/
def tsOf (now : String) (m : MessageRow) : String := orDefault m.msg.timestamp now

/-- `const replyIdToUse = hasReplyId ? message.replyId : message.id`. -/
def keyOf (m : MessageRow) : String :=
  if hasReplyId m then m.replyId.getD "" else m.id

/-- The record stored by `replyMap.set` on first sight of a grouping key. -/
def initRec (now : String) (m : MessageRow) : ReplyRec :=
  { replyId := keyOf m
    role := roleOf m
    name := nameOf m
    runId := m.run_id
    createdAt := tsOf now m
    finishedAt := tsOf now m }

/-- The in-place mutation performed on subsequent sight of a key:
`if (timestamp > existing.finishedAt) { finishedAt, role, name updated }`. -/
def updRec (now : String) (m : MessageRow) (r : ReplyRec) : ReplyRec :=
  if strLt r.finishedAt (tsOf now m) then
    { r with finishedAt := tsOf now m, role := roleOf m, name := nameOf m }
  else r

/-- `replyMap` is modelled as an association list in insertion order,
keyed by the `replyId` field, matching JavaScript `Map` iteration order. -/
def findRec (acc : List ReplyRec) (k : String) : Option ReplyRec :=
  acc.find? (fun r => r.replyId == k)

/-- One iteration of the migration's scan loop over `allMessages`. -/
def scanStep (now : String) (acc : List ReplyRec) (m : MessageRow) : List ReplyRec :=
  match findRec acc (keyOf m) with
  | some _ => acc.map (fun r => if r.replyId == keyOf m then updRec now m r else r)
  | none => acc ++ [initRec now m]

/-- The whole scan: the contents of `replyMap` after the `for` loop. -/
def buildReplyMap (now : String) (msgs : List MessageRow) : List ReplyRec :=
  msgs.foldl (scanStep now) []

/-- The primary keys of a list of reply rows. -/
def replyIds (l : List ReplyRec) : List String := l.map (fun r => r.replyId)

/-- Folding the subsequent-sight update of the scan loop over a list of
messages, starting from an in-progress record. -/
def applyGroup (now : String) (r : ReplyRec) (ms : List MessageRow) : ReplyRec :=
  ms.foldl (fun r m => updRec now m r) r

/-- The messages of the scan whose grouping key is `k`, in scan order. -/
def groupMsgs (k : String) (msgs : List MessageRow) : List MessageRow :=
  msgs.filter (fun m => keyOf m == k)

/-- `UPDATE message_table SET replyId = id WHERE replyId IS NULL OR replyId = ''`,
restricted to one row. -/
def backfillMessage (m : MessageRow) : MessageRow :=
  if hasReplyId m then m else { m with replyId := some m.id }

/-- `SELECT COUNT(*) FROM message_table WHERE replyId IS NULL OR replyId = ''`. -/
def countNullEmpty (msgs : List MessageRow) : Nat :=
  msgs.countP (fun m => !hasReplyId m)

/-- Errors a run of the migration can surface.  `tableExists` is the error a
non-`ifNotExists` table creation would raise; `pkConflict` is a primary-key
violation on `INSERT INTO reply_table`; `integrity` is the explicit
`throw new Error(...)` of step 3 of `up`. -/
inductive MigErr where
  | tableExists
  | pkConflict (k : String)
  | integrity (n : Nat)
deriving DecidableEq

/-- The database state touched by the migration.  Schema facts are booleans;
`messages` holds `message_table` in ascending `id` order (the order the
migration's `SELECT ... ORDER BY id` scans); `replies` holds `reply_table`. -/
structure DB where
  hasReplyTable : Bool
  replyRunFK : Bool
  messageReplyIdNotNull : Bool
  messageReplyFK : Bool
  replies : List ReplyRec
  messages : List MessageRow
deriving DecidableEq

/-- Step 1 of `up`: `createTable(reply_table, true /* ifNotExists */)` followed
by `createForeignKey(FK_reply_run)`.  Because `ifNotExists` is passed, an
existing `reply_table` is left in place and no error is raised. -/
def upCreateTables (db : DB) : DB :=
  let db1 := if db.hasReplyTable then db else { db with hasReplyTable := true, replies := [] }
  { db1 with replyRunFK := true }

/-- The `INSERT INTO reply_table ...` loop: each insert fails on a duplicate
primary key, leaving the rows inserted so far in place. -/
def insertAll (existing : List ReplyRec) : List ReplyRec → List ReplyRec × Option MigErr
  | [] => (existing, none)
  | r :: rs =>
    if existing.any (fun x => x.replyId == r.replyId) then
      (existing, some (MigErr.pkConflict r.replyId))
    else insertAll (existing ++ [r]) rs

/-- Step 2 of `up`: scan, insert the accumulated replies, then run the
guarded `UPDATE` backfill. -/
def upBackfill (now : String) (db : DB) : DB × Option MigErr :=
  match insertAll db.replies (buildReplyMap now db.messages) with
  | (rs, some e) => ({ db with replies := rs }, some e)
  | (rs, none) =>
    let db3 := { db with replies := rs }
    if countNullEmpty db3.messages > 0 then
      ({ db3 with messages := db3.messages.map backfillMessage }, none)
    else (db3, none)

/-- The forward migration `up`, as a state transformer that also reports the
error aborting it, if any.  On an error the returned state reflects the steps
already executed (the host's transaction wrapping is not modelled). -/
def upRun (now : String) (db : DB) : DB × Option MigErr :=
  match upBackfill now (upCreateTables db) with
  | (db1, some e) => (db1, some e)
  | (db1, none) =>
    if countNullEmpty db1.messages > 0 then
      (db1, some (MigErr.integrity (countNullEmpty db1.messages)))
    else
      ({ db1 with messageReplyIdNotNull := true, messageReplyFK := true }, none)

/-- The backward migration `down`: drop the `replyId` foreign key if present,
relax the column to nullable, `UPDATE message_table SET replyId = NULL`, and
drop `reply_table` (taking its rows and its own foreign key with it). -/
def down (db : DB) : DB :=
  let db1 := { db with messageReplyFK := false }
  let db2 := { db1 with messageReplyIdNotNull := false }
  let db3 := { db2 with messages := db2.messages.map (fun (m : MessageRow) => { m with replyId := none }) }
  { db3 with hasReplyTable := false, replies := [], replyRunFK := false }

/-! ## Avatar selection (`avatar.tsx`)

`hashString` is embedded with JavaScript number semantics made explicit:
`hash << 5` coerces its operand to a signed 32-bit integer and wraps the
result, and `hash = hash & hash` coerces the running value to a signed
32-bit integer.  A name is modelled as its list of UTF-16 character codes
(`str.charCodeAt(i)`), and the statically discovered asset list as a list
of path strings. -/

/-- JavaScript `ToInt32`: reduce an integer into `[-2^31, 2^31)`. -/
def toInt32 (n : Int) : Int := (n + 2147483648) % 4294967296 - 2147483648

/-- JavaScript `x << 5` on an integer-valued number. -/
def jsShl5 (x : Int) : Int := toInt32 (toInt32 x * 32)

/-- One loop iteration: `hash = (hash << 5) - hash + char; hash = hash & hash`. -/
def hashStep (h : Int) (c : Nat) : Int := toInt32 (jsShl5 h - h + (c : Int))

/-- `hashString(str, seed)`: the loop followed by `Math.abs`. -/
def hashString (name : List Nat) (seed : Int) : Nat :=
  (name.foldl hashStep seed).natAbs

/-- Modelled from the spec: the spec describes the hash as the 32-bit
wraparound evaluation of `hash := seed; hash := hash*31 + charCode`,
absolute value taken.  Stated separately so it can be compared with the
source embedding `hashString`. -/
def hashStringSpec (name : List Nat) (seed : Int) : Nat :=
  (name.foldl (fun (h : Int) (c : Nat) => toInt32 (h * 31 + (c : Int))) seed).natAbs

/-- `getAvatarPathByName(name, seed)` over an explicit `AVATAR_PATHS` list. -/
def getAvatarPathByName (paths : List String) (name : List Nat) (seed : Int) : String :=
  if paths.length = 0 then ""
  else paths.getD (hashString name seed % paths.length) ""

/-- The avatar content `AsAvatar` ends up rendering inside the `Avatar`
wrapper, with the node type `ν` abstract (a React node). -/
inductive AvatarChoice (ν : Type) where
  | custom (node : ν)
  | systemAvatar
  | randomAsset (node : ν)
  | initials (text : String)
deriving DecidableEq

/-- The custom avatar computed first: `renderAvatar && renderAvatar(name, role)`. -/
def customAvatarOf {ν : Type} (renderAvatar : Option (String → String → Option ν))
    (name role : String) : Option ν :=
  match renderAvatar with
  | some f => f name role
  | none => none

/-- The initials badge text: `name.slice(0, 2).toUpperCase()`. -/
def initialsText (name : String) : String := jsUpperFirst2 name

/-- The `if`/`else` chain of `AsAvatar` choosing what to render.
`loaded` is the `AvatarComponent` state: the asynchronously loaded asset,
if it has arrived. -/
def resolveAvatar {ν : Type} (name role : String) (randomAvatar : Bool)
    (renderAvatar : Option (String → String → Option ν)) (loaded : Option ν) :
    AvatarChoice ν :=
  match customAvatarOf renderAvatar name role with
  | some v => AvatarChoice.custom v
  | none =>
    if jsToLowerCase role == "system" then AvatarChoice.systemAvatar
    else
      match randomAvatar, loaded with
      | true, some c => AvatarChoice.randomAsset c
      | true, none => AvatarChoice.initials (initialsText name)
      | false, _ => AvatarChoice.initials (initialsText name)

/-! ## Chat transcript (`AsChat`) -/

/-- A chat message as consumed by `organizedReplies` (`@shared/types`). -/
structure ChatMessage where
  id : String
  name : String
  role : String
  timestamp : String
deriving DecidableEq

/-- A `Reply` as consumed by `AsChat` (`@shared/types`). -/
structure Reply where
  replyId : String
  replyName : String
  replyRole : String
  createdAt : String
  finishedAt : String
  messages : List ChatMessage
deriving DecidableEq

/-- The singleton reply synthesized for one message when flattening. -/
def flattenMessage (m : ChatMessage) : Reply :=
  { replyId := m.id
    replyName := m.name
    replyRole := m.role
    createdAt := m.timestamp
    finishedAt := m.timestamp
    messages := [m] }

/-- All messages of a reply list, traversed in reply order. -/
def allMessages (replies : List Reply) : List ChatMessage :=
  replies.flatMap (fun r => r.messages)

/-- The `organizedReplies` memo of `AsChat`. -/
def organizedReplies (byReplyId : Bool) (replies : List Reply) : List Reply :=
  if replies.length = 0 then []
  else if byReplyId then replies
  else replies.flatMap (fun r => r.messages.map flattenMessage)

/-! ## Auto-scroll (`AsChat`)

The scroll container is modelled by its three metrics.  Assigning
`scrollTop` clamps the value into `[0, scrollHeight - clientHeight]`,
the standard CSSOM behaviour of the DOM property the component writes. -/

structure ScrollEl where
  scrollTop : Nat
  scrollHeight : Nat
  clientHeight : Nat
deriving DecidableEq

/-- DOM assignment `el.scrollTop = v` (clamped by the browser). -/
def setScrollTop (el : ScrollEl) (v : Nat) : ScrollEl :=
  { el with scrollTop := min v (el.scrollHeight - el.clientHeight) }

/-- The `useEffect` body: `if (isAtBottom) el.scrollTop = el.scrollHeight`. -/
def autoScrollEffect (isAtBottom : Bool) (el : ScrollEl) : ScrollEl :=
  if isAtBottom then setScrollTop el el.scrollHeight else el

/-- `handleScroll`: `scrollHeight - scrollTop - clientHeight < 50`. -/
def handleScrollAtBottom (el : ScrollEl) : Bool :=
  el.scrollHeight - el.scrollTop - el.clientHeight < 50

/-- The transcript view state relevant to the auto-scroll behaviour. -/
structure ChatViewState where
  replies : List Reply
  el : ScrollEl
  isAtBottom : Bool
deriving DecidableEq

/-- Appending a reply: the list grows, the rendered content gives the
container a new scroll height, then the auto-scroll effect runs. -/
def appendReplyView (s : ChatViewState) (r : Reply) (newScrollHeight : Nat) :
    ChatViewState :=
  let el := { s.el with scrollHeight := newScrollHeight }
  { s with replies := s.replies ++ [r], el := autoScrollEffect s.isAtBottom el }

/-- A user scroll: the browser moves `scrollTop`, then `handleScroll` runs. -/
def onScroll (s : ChatViewState) (newTop : Nat) : ChatViewState :=
  let el := setScrollTop s.el newTop
  { s with el := el, isAtBottom := handleScrollAtBottom el }

/-! ## Concrete states used to instantiate the theorems -/

def exPayload (role name ts : String) : MsgPayload :=
  { role := some role, name := some name, timestamp := some ts }

def exMsg1 : MessageRow := { id := "1", run_id := "run0", msg := exPayload "user" "alice" "09:00", replyId := none }

def exMsg2 : MessageRow := { id := "2", run_id := "run0", msg := exPayload "assistant" "bot" "09:05", replyId := some "A" }

def exMsg3 : MessageRow := { id := "3", run_id := "run0", msg := exPayload "assistant" "bot" "09:10", replyId := some "A" }

/-- The pre-migration state of the grouping example of the spec. -/
def exDB : DB := { hasReplyTable := false, replyRunFK := false, messageReplyIdNotNull := false, messageReplyFK := false, replies := [], messages := [exMsg1, exMsg2, exMsg3] }

/-- A pre-migration state whose two messages share the reply id `"A"`. -/
def exDB6 : DB := { hasReplyTable := false, replyRunFK := false, messageReplyIdNotNull := false, messageReplyFK := false, replies := [], messages := [exMsg2, exMsg3] }

/-- A pre-migration state with a single ungrouped message. -/
def exDB1 : DB := { hasReplyTable := false, replyRunFK := false, messageReplyIdNotNull := false, messageReplyFK := false, replies := [], messages := [exMsg1] }

/-- A message whose primary key is the empty string and whose `replyId` is
NULL: its backfill writes `''` back, so the integrity gate fires. -/
def exMsgEmptyId : MessageRow := { id := "", run_id := "run0", msg := exPayload "user" "alice" "09:00", replyId := none }

def exDBEmptyId : DB := { hasReplyTable := false, replyRunFK := false, messageReplyIdNotNull := false, messageReplyFK := false, replies := [], messages := [exMsgEmptyId] }

/-- Group `"A"`, first message carrying the later timestamp. -/
def cexMsgA : MessageRow := { id := "1", run_id := "run0", msg := { role := some "r1", name := some "n1", timestamp := some "09:10" }, replyId := some "A" }

/-- Group `"A"`, second (last in scan order) message with an earlier timestamp. -/
def cexMsgB : MessageRow := { id := "2", run_id := "run0", msg := { role := some "r2", name := some "n2", timestamp := some "09:05" }, replyId := some "A" }

/-- The reply row the scan accumulates for key `"A"` in the spec example. -/
def exReplyA : ReplyRec := { replyId := "A", role := "assistant", name := "bot", runId := "run0", createdAt := "09:05", finishedAt := "09:10" }

/-- The reply row the scan accumulates for the counterexample group. -/
def cexReplyA : ReplyRec := { replyId := "A", role := "r1", name := "n1", runId := "run0", createdAt := "09:10", finishedAt := "09:10" }

/-- The first message of the spec example as it stands after the backfill. -/
def exMsg1Post : MessageRow := { id := "1", run_id := "run0", msg := exPayload "user" "alice" "09:00", replyId := some "1" }

/-- The state `up` has reached on `exDBEmptyId` when the integrity gate fires. -/
def exDBEmptyId1 : DB := { hasReplyTable := true, replyRunFK := true, messageReplyIdNotNull := false, messageReplyFK := false, replies := [{ replyId := "", role := "user", name := "alice", runId := "run0", createdAt := "09:00", finishedAt := "09:00" }], messages := [{ id := "", run_id := "run0", msg := exPayload "user" "alice" "09:00", replyId := some "" }] }

def exChatMsg : ChatMessage := { id := "m1", name := "alice", role := "user", timestamp := "09:00" }

def exChatMsg2 : ChatMessage := { id := "m2", name := "bot", role := "assistant", timestamp := "09:01" }

def exChatReply : Reply := { replyId := "R", replyName := "alice", replyRole := "user", createdAt := "09:00", finishedAt := "09:01", messages := [exChatMsg, exChatMsg2] }

end Studio

namespace Studio

/-! ## Supporting lemmas: the string order used by the scan -/

theorem codesLt_irrefl : ∀ (a : List Nat), codesLt a a = false := by
  intro a
  induction a with
  | nil => rfl
  | cons x xs ih => simp [codesLt, ih]

theorem codesLt_trans : ∀ {a b c : List Nat},
    codesLt a b = true → codesLt b c = true → codesLt a c = true := by
  intro a
  induction a with
  | nil =>
    intro b c hab hbc
    cases b with
    | nil => simp [codesLt] at hab
    | cons y ys =>
      cases c with
      | nil => simp [codesLt] at hbc
      | cons z zs => simp [codesLt]
  | cons x xs ih =>
    intro b c hab hbc
    cases b with
    | nil => simp [codesLt] at hab
    | cons y ys =>
      cases c with
      | nil => simp [codesLt] at hbc
      | cons z zs =>
        simp only [codesLt] at hab hbc ⊢
        rcases Nat.lt_trichotomy x y with hxy | hxy | hxy
        · rcases Nat.lt_trichotomy y z with hyz | hyz | hyz
          · simp [show x < z by omega]
          · subst hyz; simp [hxy]
          · rw [if_neg (by omega), if_pos hyz] at hbc; exact absurd hbc (by simp)
        · subst hxy
          rw [if_neg (by omega), if_neg (by omega)] at hab
          rcases Nat.lt_trichotomy x z with hyz | hyz | hyz
          · simp [hyz]
          · subst hyz
            rw [if_neg (by omega), if_neg (by omega)] at hbc ⊢
            exact ih hab hbc
          · rw [if_neg (by omega), if_pos hyz] at hbc; exact absurd hbc (by simp)
        · rw [if_neg (by omega), if_pos hxy] at hab; exact absurd hab (by simp)

theorem codesLt_asymm {a b : List Nat} (h : codesLt a b = true) :
    codesLt b a = false := by
  by_contra hba
  have hba2 : codesLt b a = true := by
    cases h2 : codesLt b a
    · exact absurd h2 hba
    · rfl
  have := codesLt_trans h hba2
  rw [codesLt_irrefl] at this
  exact absurd this (by simp)

theorem codesLt_neg_trans : ∀ {w q m : List Nat},
    codesLt w q = false → codesLt w m = true → codesLt q m = true := by
  intro w
  induction w with
  | nil =>
    intro q m hwq hwm
    cases q with
    | nil => exact hwm
    | cons y ys => simp [codesLt] at hwq
  | cons x xs ih =>
    intro q m hwq hwm
    cases q with
    | nil =>
      cases m with
      | nil => simp [codesLt] at hwm
      | cons z zs => simp [codesLt]
    | cons y ys =>
      cases m with
      | nil => simp [codesLt] at hwm
      | cons z zs =>
        simp only [codesLt] at hwq hwm ⊢
        rcases Nat.lt_trichotomy x y with hxy | hxy | hxy
        · rw [if_pos hxy] at hwq; exact absurd hwq (by simp)
        · subst hxy
          rw [if_neg (by omega), if_neg (by omega)] at hwq
          rcases Nat.lt_trichotomy x z with hxz | hxz | hxz
          · simp [hxz]
          · subst hxz
            rw [if_neg (by omega), if_neg (by omega)] at hwm ⊢
            exact ih hwq hwm
          · rw [if_neg (by omega), if_pos hxz] at hwm; exact absurd hwm (by simp)
        · rcases Nat.lt_trichotomy x z with hxz | hxz | hxz
          · simp [show y < z by omega]
          · simp [show y < z by omega]
          · rw [if_neg (by omega), if_pos hxz] at hwm; exact absurd hwm (by simp)

theorem strLt_irrefl (a : String) : strLt a a = false := codesLt_irrefl _

theorem strLt_trans {a b c : String} (h1 : strLt a b = true) (h2 : strLt b c = true) :
    strLt a c = true := codesLt_trans h1 h2

theorem strLt_asymm {a b : String} (h : strLt a b = true) : strLt b a = false :=
  codesLt_asymm h

theorem strLt_neg_trans {w q m : String} (h1 : strLt w q = false)
    (h2 : strLt w m = true) : strLt q m = true := codesLt_neg_trans h1 h2

/-! ## Supporting lemmas: the scan loop -/

theorem updRec_replyId (now : String) (m : MessageRow) (r : ReplyRec) :
    (updRec now m r).replyId = r.replyId := by
  unfold updRec; split <;> rfl

theorem updRec_createdAt (now : String) (m : MessageRow) (r : ReplyRec) :
    (updRec now m r).createdAt = r.createdAt := by
  unfold updRec; split <;> rfl

theorem updRec_runId (now : String) (m : MessageRow) (r : ReplyRec) :
    (updRec now m r).runId = r.runId := by
  unfold updRec; split <;> rfl

theorem findRec_cons (r : ReplyRec) (l : List ReplyRec) (k : String) :
    findRec (r :: l) k = if r.replyId == k then some r else findRec l k := by
  cases h : r.replyId == k <;> simp [findRec, List.find?, h]

theorem findRec_append (l1 l2 : List ReplyRec) (k : String) :
    findRec (l1 ++ l2) k
      = match findRec l1 k with
        | some r => some r
        | none => findRec l2 k := by
  induction l1 with
  | nil => simp [findRec]
  | cons r l ih =>
    rw [List.cons_append, findRec_cons, findRec_cons]
    cases h : r.replyId == k <;> simp [h, ih]

theorem findRec_map_preserve (g : ReplyRec → ReplyRec)
    (hg : ∀ r, (g r).replyId = r.replyId) (l : List ReplyRec) (k : String) :
    findRec (l.map g) k = (findRec l k).map g := by
  induction l with
  | nil => rfl
  | cons r l ih =>
    rw [List.map_cons, findRec_cons, findRec_cons, hg]
    cases h : r.replyId == k <;> simp [h, ih]

theorem findRec_replyId {l : List ReplyRec} {k : String} {r : ReplyRec}
    (h : findRec l k = some r) : r.replyId = k := by
  have := List.find?_some h
  exact eq_of_beq this

theorem findRec_mem {l : List ReplyRec} {k : String} {r : ReplyRec}
    (h : findRec l k = some r) : r ∈ l := List.mem_of_find?_eq_some h

theorem findRec_eq_none (l : List ReplyRec) (k : String) :
    findRec l k = none ↔ k ∉ replyIds l := by
  rw [findRec, List.find?_eq_none, replyIds]
  constructor
  · intro h hk
    rcases List.mem_map.mp hk with ⟨r, hr, hrk⟩
    have h2 : r.replyId ≠ k := by simpa using h r hr
    exact h2 hrk
  · intro h r hr
    simp only [beq_iff_eq]
    intro hrk
    exact h (List.mem_map.mpr ⟨r, hr, hrk⟩)

theorem findRec_self_of_nodup {l : List ReplyRec} (hnd : (replyIds l).Nodup)
    {r : ReplyRec} (hr : r ∈ l) : findRec l r.replyId = some r := by
  induction l with
  | nil => simp at hr
  | cons x l ih =>
    have hnd2 : x.replyId ∉ replyIds l ∧ (replyIds l).Nodup := by
      rw [replyIds, List.map_cons, List.nodup_cons] at hnd
      exact ⟨by simpa [replyIds] using hnd.1, hnd.2⟩
    rw [findRec_cons]
    rcases List.mem_cons.mp hr with rfl | hr2
    · simp
    · have hx : x.replyId ≠ r.replyId := fun hcontra =>
        hnd2.1 (hcontra ▸ List.mem_map.mpr ⟨r, hr2, rfl⟩)
      rw [if_neg (by simpa using hx)]
      exact ih hnd2.2 hr2

theorem scanStep_found (now : String) (acc : List ReplyRec) (m : MessageRow)
    {r : ReplyRec} (h : findRec acc (keyOf m) = some r) :
    scanStep now acc m
      = acc.map (fun x => if x.replyId == keyOf m then updRec now m x else x) := by
  simp [scanStep, h]

theorem scanStep_not_found (now : String) (acc : List ReplyRec) (m : MessageRow)
    (h : findRec acc (keyOf m) = none) :
    scanStep now acc m = acc ++ [initRec now m] := by
  simp [scanStep, h]

theorem replyIds_scanStep_found (now : String) (acc : List ReplyRec)
    (m : MessageRow) {r : ReplyRec} (h : findRec acc (keyOf m) = some r) :
    replyIds (scanStep now acc m) = replyIds acc := by
  rw [scanStep_found now acc m h, replyIds, replyIds, List.map_map]
  refine List.map_congr_left ?_
  intro x _
  simp only [Function.comp]
  split <;> simp [updRec_replyId]

theorem replyIds_scanStep_not_found (now : String) (acc : List ReplyRec)
    (m : MessageRow) (h : findRec acc (keyOf m) = none) :
    replyIds (scanStep now acc m) = replyIds acc ++ [keyOf m] := by
  rw [scanStep_not_found now acc m h, replyIds, List.map_append]
  rfl

theorem mem_replyIds_foldl (now : String) (msgs : List MessageRow) :
    ∀ (acc : List ReplyRec) (k : String),
      k ∈ replyIds (msgs.foldl (scanStep now) acc)
        ↔ k ∈ replyIds acc ∨ ∃ m, m ∈ msgs ∧ keyOf m = k := by
  induction msgs with
  | nil => intro acc k; simp
  | cons m0 msgs ih =>
    intro acc k
    rw [List.foldl_cons, ih (scanStep now acc m0) k]
    cases h : findRec acc (keyOf m0) with
    | some r =>
      rw [replyIds_scanStep_found now acc m0 h]
      have hk0 : keyOf m0 ∈ replyIds acc := by
        by_contra hn
        rw [← findRec_eq_none acc (keyOf m0), h] at hn
        exact absurd hn (by simp)
      constructor
      · rintro (hin | ⟨m, hmm, hk⟩)
        · exact Or.inl hin
        · exact Or.inr ⟨m, List.mem_cons_of_mem _ hmm, hk⟩
      · rintro (hin | ⟨m, hmm, hk⟩)
        · exact Or.inl hin
        · rcases List.mem_cons.mp hmm with rfl | hmm2
          · exact Or.inl (hk ▸ hk0)
          · exact Or.inr ⟨m, hmm2, hk⟩
    | none =>
      rw [replyIds_scanStep_not_found now acc m0 h]
      constructor
      · rintro (hin | ⟨m, hmm, hk⟩)
        · rcases List.mem_append.mp hin with hin2 | hin2
          · exact Or.inl hin2
          · exact Or.inr ⟨m0, List.mem_cons_self _ _, (List.mem_singleton.mp hin2).symm⟩
        · exact Or.inr ⟨m, List.mem_cons_of_mem _ hmm, hk⟩
      · rintro (hin | ⟨m, hmm, hk⟩)
        · exact Or.inl (List.mem_append.mpr (Or.inl hin))
        · rcases List.mem_cons.mp hmm with rfl | hmm2
          · exact Or.inl (List.mem_append.mpr (Or.inr (List.mem_singleton.mpr hk.symm)))
          · exact Or.inr ⟨m, hmm2, hk⟩

theorem nodup_replyIds_foldl (now : String) (msgs : List MessageRow) :
    ∀ (acc : List ReplyRec), (replyIds acc).Nodup →
      (replyIds (msgs.foldl (scanStep now) acc)).Nodup := by
  induction msgs with
  | nil => intro acc h; exact h
  | cons m0 msgs ih =>
    intro acc h
    rw [List.foldl_cons]
    cases hf : findRec acc (keyOf m0) with
    | some r => exact ih _ (by rw [replyIds_scanStep_found now acc m0 hf]; exact h)
    | none =>
      refine ih _ ?_
      rw [replyIds_scanStep_not_found now acc m0 hf]
      rw [List.nodup_append]
      exact ⟨h, List.nodup_singleton _, by
        intro a ha hb
        rcases List.mem_singleton.mp hb with rfl
        exact ((findRec_eq_none acc (keyOf m0)).mp hf) ha⟩

theorem applyGroup_nil (now : String) (r : ReplyRec) : applyGroup now r [] = r := rfl

theorem applyGroup_cons (now : String) (r : ReplyRec) (m : MessageRow)
    (ms : List MessageRow) :
    applyGroup now r (m :: ms) = applyGroup now (updRec now m r) ms := rfl

theorem applyGroup_append_one (now : String) (r : ReplyRec) (ms : List MessageRow)
    (m : MessageRow) :
    applyGroup now r (ms ++ [m]) = updRec now m (applyGroup now r ms) := by
  simp [applyGroup, List.foldl_append]

theorem applyGroup_replyId (now : String) (ms : List MessageRow) :
    ∀ r : ReplyRec, (applyGroup now r ms).replyId = r.replyId := by
  induction ms with
  | nil => intro r; rfl
  | cons m ms ih => intro r; rw [applyGroup_cons, ih, updRec_replyId]

theorem applyGroup_createdAt (now : String) (ms : List MessageRow) :
    ∀ r : ReplyRec, (applyGroup now r ms).createdAt = r.createdAt := by
  induction ms with
  | nil => intro r; rfl
  | cons m ms ih => intro r; rw [applyGroup_cons, ih, updRec_createdAt]

theorem applyGroup_runId (now : String) (ms : List MessageRow) :
    ∀ r : ReplyRec, (applyGroup now r ms).runId = r.runId := by
  induction ms with
  | nil => intro r; rfl
  | cons m ms ih => intro r; rw [applyGroup_cons, ih, updRec_runId]

theorem groupMsgs_nil (k : String) : groupMsgs k [] = [] := rfl

theorem groupMsgs_cons_of_key (k : String) (m : MessageRow) (msgs : List MessageRow)
    (h : keyOf m = k) : groupMsgs k (m :: msgs) = m :: groupMsgs k msgs := by
  simp [groupMsgs, List.filter_cons, h]

theorem groupMsgs_cons_of_ne (k : String) (m : MessageRow) (msgs : List MessageRow)
    (h : keyOf m ≠ k) : groupMsgs k (m :: msgs) = groupMsgs k msgs := by
  simp [groupMsgs, List.filter_cons, h]

/-- The central characterization of the scan loop: the record the fold holds
at key `k` is the one obtained by folding the subsequent-sight update over
the scanned messages of group `k`, starting either from the record the
accumulator already held or from `initRec` of the group's first message. -/
theorem findRec_foldl (now : String) (msgs : List MessageRow) :
    ∀ (acc : List ReplyRec) (k : String),
      findRec (msgs.foldl (scanStep now) acc) k
        = match findRec acc k with
          | some r => some (applyGroup now r (groupMsgs k msgs))
          | none =>
            match groupMsgs k msgs with
            | [] => none
            | m :: ms => some (applyGroup now (initRec now m) ms) := by
  induction msgs with
  | nil =>
    intro acc k
    cases h : findRec acc k <;> simp [groupMsgs_nil, applyGroup_nil, h]
  | cons m0 msgs ih =>
    intro acc k
    rw [List.foldl_cons, ih (scanStep now acc m0) k]
    by_cases hk : keyOf m0 = k
    · subst hk
      cases h : findRec acc (keyOf m0) with
      | some r =>
        have hr : r.replyId = keyOf m0 := findRec_replyId h
        have hmap : findRec (scanStep now acc m0) (keyOf m0)
            = some (updRec now m0 r) := by
          rw [scanStep_found now acc m0 h,
            findRec_map_preserve _ (fun x => by split <;> simp [updRec_replyId]) acc (keyOf m0),
            h]
          simp [hr]
        rw [hmap, groupMsgs_cons_of_key _ _ _ rfl]
        simp [applyGroup_cons]
      | none =>
        have hnew : findRec (scanStep now acc m0) (keyOf m0)
            = some (initRec now m0) := by
          rw [scanStep_not_found now acc m0 h, findRec_append, h]
          simp [findRec_cons, initRec]
        rw [hnew, groupMsgs_cons_of_key _ _ _ rfl]
    · cases h : findRec acc (keyOf m0) with
      | some r =>
        have hpres : findRec (scanStep now acc m0) k = findRec acc k := by
          rw [scanStep_found now acc m0 h,
            findRec_map_preserve _ (fun x => by split <;> simp [updRec_replyId]) acc k]
          cases h2 : findRec acc k with
          | some r2 =>
            have hne : r2.replyId ≠ keyOf m0 := by
              rw [findRec_replyId h2]
              exact fun hc => hk hc.symm
            simp [hne]
          | none => rfl
        rw [hpres, groupMsgs_cons_of_ne _ _ _ hk]
      | none =>
        have hpres : findRec (scanStep now acc m0) k = findRec acc k := by
          rw [scanStep_not_found now acc m0 h, findRec_append]
          cases h2 : findRec acc k with
          | some r2 => rfl
          | none =>
            simp only [findRec_cons, initRec]
            rw [if_neg (by simpa using hk)]
            rfl
        rw [hpres, groupMsgs_cons_of_ne _ _ _ hk]

/-- Every record the finished scan holds is the fold of its own scanned
group: the specialization of `findRec_foldl` to `buildReplyMap`. -/
theorem findRec_buildReplyMap (now : String) (msgs : List MessageRow) (k : String) :
    findRec (buildReplyMap now msgs) k
      = match groupMsgs k msgs with
        | [] => none
        | m :: ms => some (applyGroup now (initRec now m) ms) := by
  rw [buildReplyMap, findRec_foldl now msgs [] k]
  rfl

theorem nodup_replyIds_buildReplyMap (now : String) (msgs : List MessageRow) :
    (replyIds (buildReplyMap now msgs)).Nodup :=
  nodup_replyIds_foldl now msgs [] (by simp [replyIds])

theorem mem_replyIds_buildReplyMap (now : String) (msgs : List MessageRow)
    (k : String) :
    k ∈ replyIds (buildReplyMap now msgs) ↔ ∃ m, m ∈ msgs ∧ keyOf m = k := by
  rw [buildReplyMap, mem_replyIds_foldl now msgs [] k]
  simp [replyIds]

/-- The first-strict-maximum characterization of the subsequent-sight fold:
starting the scan of a group at its first message, the finishing timestamp,
role and name of the accumulated record all come from the first message of
the group (in scan order) whose timestamp every earlier group member
strictly precedes and no later group member exceeds. -/
theorem applyGroup_first_max (now : String) (ms : List MessageRow) (m0 : MessageRow) :
    ∃ pre w post, m0 :: ms = pre ++ w :: post
      ∧ (applyGroup now (initRec now m0) ms).finishedAt = tsOf now w
      ∧ (applyGroup now (initRec now m0) ms).role = roleOf w
      ∧ (applyGroup now (initRec now m0) ms).name = nameOf w
      ∧ (∀ p, p ∈ pre → strLt (tsOf now p) (tsOf now w) = true)
      ∧ (∀ q, q ∈ post → strLt (tsOf now w) (tsOf now q) = false) := by
  induction ms using List.reverseRecOn with
  | nil =>
    refine ⟨[], m0, [], rfl, ?_, ?_, ?_, by simp, by simp⟩ <;>
      simp [applyGroup_nil, initRec]
  | append_singleton ms m ihm =>
    rcases ihm with ⟨pre, w, post, hdecomp, hfin, hrole, hname, hpre, hpost⟩
    rw [applyGroup_append_one]
    by_cases hlt : strLt (applyGroup now (initRec now m0) ms).finishedAt (tsOf now m) = true
    · refine ⟨m0 :: ms, m, [], by simp, ?_, ?_, ?_, ?_, by simp⟩
      · simp [updRec, hlt]
      · simp [updRec, hlt]
      · simp [updRec, hlt]
      · intro p hp
        have hwm : strLt (tsOf now w) (tsOf now m) = true := by rw [← hfin]; exact hlt
        have hp2 : p ∈ pre ++ w :: post := by rw [← hdecomp]; exact hp
        rcases List.mem_append.mp hp2 with hp3 | hp3
        · exact strLt_trans (hpre p hp3) hwm
        · rcases List.mem_cons.mp hp3 with rfl | hp4
          · exact hwm
          · exact strLt_neg_trans (hpost p hp4) hwm
    · have hlt2 : strLt (applyGroup now (initRec now m0) ms).finishedAt (tsOf now m) = false := by
        cases h2 : strLt (applyGroup now (initRec now m0) ms).finishedAt (tsOf now m)
        · rfl
        · exact absurd h2 hlt
      refine ⟨pre, w, post ++ [m],
        by rw [show m0 :: (ms ++ [m]) = (m0 :: ms) ++ [m] by simp, hdecomp]; simp,
        ?_, ?_, ?_, hpre, ?_⟩
      · simp only [updRec, hlt2]; simp [hfin]
      · simp only [updRec, hlt2]; simp [hrole]
      · simp only [updRec, hlt2]; simp [hname]
      · intro q hq
        rcases List.mem_append.mp hq with hq2 | hq2
        · exact hpost q hq2
        · rcases List.mem_singleton.mp hq2 with rfl
          rw [← hfin]; exact hlt2

theorem insertAll_ok_eq : ∀ (l existing res : List ReplyRec),
    insertAll existing l = (res, none) → res = existing ++ l := by
  intro l
  induction l with
  | nil =>
    intro existing res h
    simp only [insertAll, Prod.mk.injEq] at h
    simp [h.1.symm]
  | cons r rs ih =>
    intro existing res h
    simp only [insertAll] at h
    split at h
    · exact absurd h (by simp)
    · rw [ih (existing ++ [r]) res h, List.append_assoc]
      rfl

theorem insertAll_conflict_head (existing : List ReplyRec) (r : ReplyRec)
    (rs : List ReplyRec) (h : r.replyId ∈ replyIds existing) :
    insertAll existing (r :: rs) = (existing, some (MigErr.pkConflict r.replyId)) := by
  have hany : existing.any (fun x => x.replyId == r.replyId) = true := by
    rw [List.any_eq_true]
    rcases List.mem_map.mp h with ⟨x, hx, hxe⟩
    exact ⟨x, hx, by simp [hxe]⟩
  simp [insertAll, hany]

theorem scanStep_ne_nil (now : String) (acc : List ReplyRec) (m : MessageRow) :
    scanStep now acc m ≠ [] := by
  cases h : findRec acc (keyOf m) with
  | some r =>
    rw [scanStep_found now acc m h]
    have hmem : r ∈ acc := findRec_mem h
    intro hc
    rw [List.map_eq_nil_iff] at hc
    subst hc
    simp at hmem
  | none =>
    rw [scanStep_not_found now acc m h]
    simp

theorem foldl_scanStep_ne_nil (now : String) (msgs : List MessageRow) :
    ∀ acc : List ReplyRec, acc ≠ [] → msgs.foldl (scanStep now) acc ≠ [] := by
  induction msgs with
  | nil => intro acc h; exact h
  | cons m msgs ih =>
    intro acc h
    rw [List.foldl_cons]
    exact ih _ (scanStep_ne_nil now acc m)

theorem buildReplyMap_ne_nil (now : String) {msgs : List MessageRow}
    (h : msgs ≠ []) : buildReplyMap now msgs ≠ [] := by
  cases msgs with
  | nil => exact absurd rfl h
  | cons m msgs =>
    rw [buildReplyMap, List.foldl_cons]
    exact foldl_scanStep_ne_nil now msgs _ (scanStep_ne_nil now [] m)

theorem upCreateTables_messages (db : DB) :
    (upCreateTables db).messages = db.messages := by
  by_cases h : db.hasReplyTable <;> simp [upCreateTables, h]

theorem upCreateTables_hasReplyTable (db : DB) :
    (upCreateTables db).hasReplyTable = true := by
  by_cases h : db.hasReplyTable <;> simp [upCreateTables, h]

theorem upCreateTables_replies_of_has (db : DB) (h : db.hasReplyTable = true) :
    (upCreateTables db).replies = db.replies := by
  simp [upCreateTables, h]

theorem upCreateTables_notNull (db : DB) :
    (upCreateTables db).messageReplyIdNotNull = db.messageReplyIdNotNull := by
  by_cases h : db.hasReplyTable <;> simp [upCreateTables, h]

theorem upCreateTables_msgFK (db : DB) :
    (upCreateTables db).messageReplyFK = db.messageReplyFK := by
  by_cases h : db.hasReplyTable <;> simp [upCreateTables, h]

theorem backfillMessage_of_has (m : MessageRow) (h : hasReplyId m = true) :
    backfillMessage m = m := by
  simp [backfillMessage, h]

theorem countNullEmpty_eq_zero_iff (msgs : List MessageRow) :
    countNullEmpty msgs = 0 ↔ ∀ m ∈ msgs, hasReplyId m = true := by
  rw [countNullEmpty, List.countP_eq_zero]
  constructor <;> intro h m hm <;> have h2 := h m hm <;> simpa using h2

theorem map_backfill_of_count_zero {msgs : List MessageRow}
    (h : countNullEmpty msgs = 0) : msgs.map backfillMessage = msgs := by
  have hall := (countNullEmpty_eq_zero_iff msgs).mp h
  conv_rhs => rw [← List.map_id msgs]
  refine List.map_congr_left ?_
  intro a ha
  simp [backfillMessage_of_has a (hall a ha)]

/-- Whenever a message survives the backfill with a usable `replyId`, that
`replyId` is exactly the grouping key the scan used for the message. -/
theorem backfill_replyId_key (m0 : MessageRow)
    (h : hasReplyId (backfillMessage m0) = true) :
    (backfillMessage m0).replyId = some (keyOf m0) ∧ keyOf m0 ≠ "" := by
  by_cases h0 : hasReplyId m0 = true
  · rw [backfillMessage_of_has m0 h0]
    cases hm : m0.replyId with
    | none => simp [hasReplyId, hm] at h0
    | some s =>
      have hs : s ≠ "" := by simpa [hasReplyId, hm] using h0
      constructor
      · simp [keyOf, h0, hm]
      · simp [keyOf, h0, hm]
        exact hs
  · have hfalse : hasReplyId m0 = false := by
      cases h2 : hasReplyId m0
      · rfl
      · exact absurd h2 h0
    rw [backfillMessage, if_neg (by simp [hfalse])] at h ⊢
    have hid : m0.id ≠ "" := by simpa [hasReplyId] using h
    constructor
    · rw [keyOf, if_neg (by simp [hfalse])]
    · rw [keyOf, if_neg (by simp [hfalse])]
      exact hid

theorem upBackfill_ok (now : String) (db db1 : DB)
    (h : upBackfill now db = (db1, none)) :
    db1.replies = db.replies ++ buildReplyMap now db.messages
    ∧ db1.messages = db.messages.map backfillMessage
    ∧ db1.hasReplyTable = db.hasReplyTable
    ∧ db1.replyRunFK = db.replyRunFK
    ∧ db1.messageReplyIdNotNull = db.messageReplyIdNotNull
    ∧ db1.messageReplyFK = db.messageReplyFK := by
  unfold upBackfill at h
  rcases hi : insertAll db.replies (buildReplyMap now db.messages) with ⟨rs, e⟩
  rw [hi] at h
  cases e with
  | some err => simp at h
  | none =>
    have hrs : rs = db.replies ++ buildReplyMap now db.messages :=
      insertAll_ok_eq _ _ _ hi
    dsimp only at h
    by_cases hc : countNullEmpty db.messages > 0
    · rw [if_pos hc] at h
      simp only [Prod.mk.injEq] at h
      rw [← h.1]
      exact ⟨hrs, rfl, rfl, rfl, rfl, rfl⟩
    · rw [if_neg hc] at h
      simp only [Prod.mk.injEq] at h
      rw [← h.1]
      have hzero : countNullEmpty db.messages = 0 := by omega
      exact ⟨hrs, (map_backfill_of_count_zero hzero).symm, rfl, rfl, rfl, rfl⟩

theorem upRun_ok (now : String) (db db' : DB) (h : upRun now db = (db', none)) :
    ∃ db1, upBackfill now (upCreateTables db) = (db1, none)
      ∧ countNullEmpty db1.messages = 0
      ∧ db' = { db1 with messageReplyIdNotNull := true, messageReplyFK := true } := by
  unfold upRun at h
  rcases hb : upBackfill now (upCreateTables db) with ⟨db1, e⟩
  rw [hb] at h
  cases e with
  | some err => simp at h
  | none =>
    dsimp only at h
    by_cases hc : countNullEmpty db1.messages > 0
    · rw [if_pos hc] at h
      simp at h
    · rw [if_neg hc] at h
      simp only [Prod.mk.injEq] at h
      exact ⟨db1, rfl, by omega, h.1.symm⟩

theorem flatMap_map_flattenMessage (rs : List Reply) :
    rs.flatMap (fun r => r.messages.map flattenMessage)
      = (rs.flatMap (fun r => r.messages)).map flattenMessage := by
  induction rs with
  | nil => rfl
  | cons r rs ih => simp [List.flatMap_cons, ih]

theorem allMessages_map_flattenMessage (l : List ChatMessage) :
    allMessages (l.map flattenMessage) = l := by
  induction l with
  | nil => rfl
  | cons m l ih => simp [allMessages, flattenMessage] at ih ⊢; exact ih

/-! ## Claim theorems for the UI components -/

/-- C10: with the by-reply-id display mode off, `organizedReplies` yields one
synthesized singleton reply per message, in message traversal order, copying
the message's id, name, role and timestamp into the synthesized reply; the
number and order of displayed messages is preserved. -/
theorem organizedReplies_flatten_law (replies : List Reply) :
    organizedReplies false replies = (allMessages replies).map flattenMessage
    ∧ allMessages (organizedReplies false replies) = allMessages replies
    ∧ (organizedReplies false replies).length = (allMessages replies).length
    ∧ ∀ x, x ∈ organizedReplies false replies →
        ∃ m, m ∈ allMessages replies ∧ x.replyId = m.id ∧ x.replyName = m.name
          ∧ x.replyRole = m.role ∧ x.createdAt = m.timestamp
          ∧ x.finishedAt = m.timestamp ∧ x.messages = [m] := by
  have h1 : organizedReplies false replies = (allMessages replies).map flattenMessage := by
    cases replies with
    | nil => rfl
    | cons r rs =>
      simp only [organizedReplies, allMessages, List.length_cons]
      rw [if_neg (by omega), if_neg (by simp)]
      exact flatMap_map_flattenMessage (r :: rs)
  refine ⟨h1, ?_, ?_, ?_⟩
  · rw [h1]; exact allMessages_map_flattenMessage _
  · rw [h1]; simp
  · intro x hx
    rw [h1] at hx
    rcases List.mem_map.mp hx with ⟨m, hm, rfl⟩
    exact ⟨m, hm, rfl, rfl, rfl, rfl, rfl, rfl⟩

/-- Witness for C10 at a concrete reply list. -/
theorem organizedReplies_flatten_law_witness :
    ∃ m, m ∈ allMessages [exChatReply] ∧ (flattenMessage exChatMsg).replyId = m.id
      ∧ (flattenMessage exChatMsg).replyName = m.name
      ∧ (flattenMessage exChatMsg).replyRole = m.role
      ∧ (flattenMessage exChatMsg).createdAt = m.timestamp
      ∧ (flattenMessage exChatMsg).finishedAt = m.timestamp
      ∧ (flattenMessage exChatMsg).messages = [m] :=
  (organizedReplies_flatten_law [exChatReply]).2.2.2 (flattenMessage exChatMsg) (by decide)

/-- C7: avatar selection is deterministic in (name, seed, asset list): the
JavaScript rolling hash of `hashString` coincides with the 32-bit wraparound
evaluation of `hash := seed; hash := hash*31 + charCode`, the selected index
is that hash's absolute value modulo the asset count, and the empty asset
list yields the empty path. -/
theorem avatar_selection_hash_law (paths : List String) (name : List Nat) (seed : Int) :
    hashString name seed = hashStringSpec name seed
    ∧ getAvatarPathByName paths name seed
        = (if paths.length = 0 then ""
           else paths.getD (hashStringSpec name seed % paths.length) "")
    ∧ getAvatarPathByName [] name seed = "" := by
  have hstep : ∀ (h : Int) (c : Nat), hashStep h c = toInt32 (h * 31 + (c : Int)) := by
    intro h c
    simp only [hashStep, jsShl5, toInt32]
    omega
  have hfold : ∀ (l : List Nat) (s : Int),
      l.foldl hashStep s
        = l.foldl (fun (h : Int) (c : Nat) => toInt32 (h * 31 + (c : Int))) s := by
    intro l
    induction l with
    | nil => intro s; rfl
    | cons a l ih => intro s; simp only [List.foldl_cons, hstep, ih]
  have hh : hashString name seed = hashStringSpec name seed := by
    simp only [hashString, hashStringSpec, hfold]
  exact ⟨hh, by simp only [getAvatarPathByName, hh], rfl⟩

/-- C8: `AsAvatar` resolution precedence: a non-null custom render wins
regardless of role and the random-avatar flag; else a role equal to
`"system"` after lowercasing shows the fixed system avatar; else a loaded
random asset is shown when the flag is on; otherwise the initials badge
(first two characters of the name, uppercased). -/
theorem asAvatar_precedence (ν : Type) (name role : String) (ra : Bool)
    (f : Option (String → String → Option ν)) (loaded : Option ν) :
    (∀ v, customAvatarOf f name role = some v →
        resolveAvatar name role ra f loaded = AvatarChoice.custom v)
    ∧ (customAvatarOf f name role = none → (jsToLowerCase role == "system") = true →
        resolveAvatar name role ra f loaded = AvatarChoice.systemAvatar)
    ∧ (∀ c, customAvatarOf f name role = none → (jsToLowerCase role == "system") = false →
        ra = true → loaded = some c →
        resolveAvatar name role ra f loaded = AvatarChoice.randomAsset c)
    ∧ (customAvatarOf f name role = none → (jsToLowerCase role == "system") = false →
        ra = false ∨ loaded = none →
        resolveAvatar name role ra f loaded
          = AvatarChoice.initials (jsUpperFirst2 name)) := by
  refine ⟨?_, ?_, ?_, ?_⟩
  · intro v hv; simp [resolveAvatar, hv]
  · intro h1 h2; simp [resolveAvatar, h1, h2]
  · intro c h1 h2 h3 h4; simp [resolveAvatar, h1, h2, h3, h4]
  · intro h1 h2 h34
    rcases h34 with h3 | h3
    · subst h3; simp [resolveAvatar, h1, h2, initialsText]
    · subst h3; cases ra <;> simp [resolveAvatar, h1, h2, initialsText]

/-- Witness for C8 exercising all four precedence branches. -/
theorem asAvatar_precedence_witness :
    resolveAvatar (ν := Nat) "alice" "user" true (some fun _ _ => some 7) none
      = AvatarChoice.custom 7
    ∧ resolveAvatar (ν := Nat) "alice" "SYSTEM" true none (some 3)
      = AvatarChoice.systemAvatar
    ∧ resolveAvatar (ν := Nat) "alice" "user" true none (some 3)
      = AvatarChoice.randomAsset 3
    ∧ resolveAvatar (ν := Nat) "alice" "user" false none (some 3)
      = AvatarChoice.initials "AL" := by
  refine ⟨(asAvatar_precedence Nat "alice" "user" true (some fun _ _ => some 7) none).1 7 rfl,
    (asAvatar_precedence Nat "alice" "SYSTEM" true none (some 3)).2.1 rfl (by decide),
    (asAvatar_precedence Nat "alice" "user" true none (some 3)).2.2.1 3 rfl (by decide) rfl rfl,
    ?_⟩
  have h := (asAvatar_precedence Nat "alice" "user" false none (some 3)).2.2.2 rfl
    (by decide) (Or.inl rfl)
  have h2 : jsUpperFirst2 "alice" = "AL" := by decide
  rw [h2] at h
  exact h

/-- C9: when a reply is appended while `isAtBottom` is true the scroll offset
afterwards is the scroll height minus the client height (the assignment
`scrollTop = scrollHeight` clamped by the DOM); while `isAtBottom` is false
the offset is untouched; and the scroll handler reports "at bottom" exactly
when `scrollHeight - scrollTop - clientHeight < 50`. -/
theorem autoScroll_law (s : ChatViewState) (r : Reply) (newScrollHeight : Nat) :
    (s.isAtBottom = true →
      (appendReplyView s r newScrollHeight).el.scrollTop
        = newScrollHeight - s.el.clientHeight)
    ∧ (s.isAtBottom = false →
      (appendReplyView s r newScrollHeight).el.scrollTop = s.el.scrollTop)
    ∧ ∀ el : ScrollEl, (onScroll s el.scrollTop).isAtBottom = handleScrollAtBottom (setScrollTop s.el el.scrollTop)
      ∧ (handleScrollAtBottom el = true ↔
          el.scrollHeight - el.scrollTop - el.clientHeight < 50) := by
  refine ⟨?_, ?_, ?_⟩
  · intro h
    simp [appendReplyView, autoScrollEffect, setScrollTop, h,
      Nat.min_eq_right (Nat.sub_le _ _)]
  · intro h
    simp [appendReplyView, autoScrollEffect, h]
  · intro el
    exact ⟨rfl, by simp [handleScrollAtBottom]⟩

/-- Witness for C9 at concrete scroll metrics. -/
theorem autoScroll_law_witness :
    (appendReplyView { replies := [], el := { scrollTop := 0, scrollHeight := 100, clientHeight := 40 }, isAtBottom := true } exChatReply 200).el.scrollTop = 200 - 40
    ∧ (appendReplyView { replies := [], el := { scrollTop := 7, scrollHeight := 100, clientHeight := 40 }, isAtBottom := false } exChatReply 200).el.scrollTop = 7 :=
  ⟨(autoScroll_law { replies := [], el := { scrollTop := 0, scrollHeight := 100, clientHeight := 40 }, isAtBottom := true } exChatReply 200).1 rfl,
   (autoScroll_law { replies := [], el := { scrollTop := 7, scrollHeight := 100, clientHeight := 40 }, isAtBottom := false } exChatReply 200).2.1 rfl⟩

/-- C6: `down` drops the message foreign key, relaxes the NOT NULL
constraint, nulls out every `replyId` and drops `reply_table`; and the
round trip `down` then `up` is lossy: on the concrete state whose two
messages shared reply `"A"`, the original `up` produced the single reply
`"A"` while the re-run after `down` produces the singleton replies
`"2"` and `"3"`, one per message. -/
theorem down_resets_and_roundtrip_lossy :
    (∀ db : DB,
      (down db).messageReplyFK = false
      ∧ (down db).messageReplyIdNotNull = false
      ∧ (down db).messages.all (fun m => m.replyId == none) = true
      ∧ (down db).messages.length = db.messages.length
      ∧ (down db).hasReplyTable = false
      ∧ (down db).replies = [])
    ∧ (upRun "T" exDB6).2 = none
    ∧ ((upRun "T" exDB6).1.replies.map (fun r => r.replyId)) = ["A"]
    ∧ (upRun "T" (down (upRun "T" exDB6).1)).2 = none
    ∧ ((upRun "T" (down (upRun "T" exDB6).1)).1.replies.map (fun r => r.replyId)) = ["2", "3"]
    ∧ ((upRun "T" (down (upRun "T" exDB6).1)).1.messages.map (fun m => m.replyId)) = [some "2", some "3"]
    ∧ (["A"] : List String) ≠ ["2", "3"] := by
  refine ⟨?_, by decide, by decide, by decide, by decide, by decide, by decide⟩
  intro db
  refine ⟨rfl, rfl, ?_, by simp [down], rfl, rfl⟩
  simp [down, List.all_map, Function.comp]

/-! ## Claim theorems for the migration -/

theorem upRun_snd_err (now : String) (db : DB) {e : MigErr}
    (h : (upBackfill now (upCreateTables db)).2 = some e) :
    (upRun now db).2 = some e := by
  unfold upRun
  rcases hb : upBackfill now (upCreateTables db) with ⟨db1, e2⟩
  rw [hb] at h
  dsimp only at h
  subst h
  rfl

theorem upRun_ok_facts (now : String) (db db' : DB)
    (h : upRun now db = (db', none)) :
    db'.hasReplyTable = true
    ∧ (∀ m, m ∈ db'.messages → hasReplyId m = true)
    ∧ db'.messages = db.messages.map backfillMessage
    ∧ db'.replies = (upCreateTables db).replies ++ buildReplyMap now db.messages := by
  obtain ⟨db1, hb, hcnt, rfl⟩ := upRun_ok now db db' h
  obtain ⟨hreps, hmsgs, hhrt, hrfk, hnn, hmfk⟩ :=
    upBackfill_ok now (upCreateTables db) db1 hb
  refine ⟨?_, ?_, ?_, ?_⟩
  · show db1.hasReplyTable = true
    rw [hhrt, upCreateTables_hasReplyTable]
  · intro m hm
    exact (countNullEmpty_eq_zero_iff db1.messages).mp hcnt m hm
  · show db1.messages = _
    rw [hmsgs, upCreateTables_messages]
  · show db1.replies = _
    rw [hreps, upCreateTables_messages]

/-- Shared helper: after a successful `up`, every message row references an
inserted reply row. -/
theorem up_ok_referential (now : String) (db db' : DB)
    (h : upRun now db = (db', none)) :
    ∀ m, m ∈ db'.messages → ∃ s, m.replyId = some s ∧ s ≠ ""
      ∧ ∃ r, r ∈ buildReplyMap now db.messages ∧ r ∈ db'.replies ∧ r.replyId = s := by
  obtain ⟨hht, hall, hmsgs, hreps⟩ := upRun_ok_facts now db db' h
  intro m hm
  have hhas : hasReplyId m = true := hall m hm
  rw [hmsgs] at hm
  rcases List.mem_map.mp hm with ⟨m0, hm0, rfl⟩
  obtain ⟨hrid, hkne⟩ := backfill_replyId_key m0 hhas
  refine ⟨keyOf m0, hrid, hkne, ?_⟩
  have hk : keyOf m0 ∈ replyIds (buildReplyMap now db.messages) :=
    (mem_replyIds_buildReplyMap now db.messages (keyOf m0)).mpr ⟨m0, hm0, rfl⟩
  rcases List.mem_map.mp (by simpa [replyIds] using hk) with ⟨r, hr, hre⟩
  refine ⟨r, hr, ?_, hre⟩
  rw [hreps]
  exact List.mem_append.mpr (Or.inr hr)

/-- C1: whenever the forward migration completes successfully, every row of
`message_table` carries a non-null, non-empty `replyId` that is the primary
key of one of the rows the migration inserted into `reply_table` (and which
is present in the final `reply_table`). -/
theorem migration_referential_integrity (now : String) (db db' : DB)
    (h : upRun now db = (db', none)) :
    ∀ m, m ∈ db'.messages → ∃ s, m.replyId = some s ∧ s ≠ ""
      ∧ ∃ r, r ∈ buildReplyMap now db.messages ∧ r ∈ db'.replies ∧ r.replyId = s :=
  up_ok_referential now db db' h

/-- Witness for C1: the backfilled first message of the spec example. -/
theorem migration_referential_integrity_witness :
    ∃ s, exMsg1Post.replyId = some s ∧ s ≠ ""
      ∧ ∃ r, r ∈ buildReplyMap "T" exDB.messages
          ∧ r ∈ (upRun "T" exDB).1.replies ∧ r.replyId = s :=
  migration_referential_integrity "T" exDB (upRun "T" exDB).1 (by decide)
    exMsg1Post (by decide)

/-- C2: the scan produces exactly one reply row per distinct grouping key
(a message's key being its non-empty `replyId`, else its own id); the row's
`createdAt` is the timestamp of the group's first message in scan order and
its `finishedAt` is the lexicographically greatest timestamp in the group;
and on the spec's concrete example it yields replies `"1"` and `"A"` with
`"A"` spanning 09:05 to 09:10, message 1 getting `replyId "1"` and messages
2 and 3 keeping `replyId "A"`. -/
theorem migration_grouping_law (now : String) (msgs : List MessageRow) :
    (replyIds (buildReplyMap now msgs)).Nodup
    ∧ (∀ k, k ∈ replyIds (buildReplyMap now msgs) ↔ ∃ m, m ∈ msgs ∧ keyOf m = k)
    ∧ (∀ r, r ∈ buildReplyMap now msgs →
        ∃ m ms2, groupMsgs r.replyId msgs = m :: ms2
          ∧ r.createdAt = tsOf now m
          ∧ (∃ w, w ∈ groupMsgs r.replyId msgs ∧ r.finishedAt = tsOf now w)
          ∧ ∀ q, q ∈ groupMsgs r.replyId msgs → strLt r.finishedAt (tsOf now q) = false)
    ∧ ((upRun "T" exDB).2 = none
        ∧ ((upRun "T" exDB).1.replies.map (fun r => (r.replyId, r.createdAt, r.finishedAt)))
            = [("1", "09:00", "09:00"), ("A", "09:05", "09:10")]
        ∧ ((upRun "T" exDB).1.messages.map (fun m => m.replyId))
            = [some "1", some "A", some "A"]) := by
  refine ⟨nodup_replyIds_buildReplyMap now msgs, mem_replyIds_buildReplyMap now msgs,
    ?_, by decide, by decide, by decide⟩
  intro r hr
  have hfind : findRec (buildReplyMap now msgs) r.replyId = some r :=
    findRec_self_of_nodup (nodup_replyIds_buildReplyMap now msgs) hr
  rw [findRec_buildReplyMap] at hfind
  rcases hg : groupMsgs r.replyId msgs with _ | ⟨m, ms2⟩
  · rw [hg] at hfind; simp at hfind
  · rw [hg] at hfind
    dsimp only at hfind
    simp only [Option.some.injEq] at hfind
    obtain ⟨pre, w, post, hdec, hfin, hrole, hname, hpre, hpost⟩ :=
      applyGroup_first_max now ms2 m
    refine ⟨m, ms2, rfl, ?_, ⟨w, ?_, ?_⟩, ?_⟩
    · rw [← hfind, applyGroup_createdAt]
      rfl
    · rw [hdec]
      exact List.mem_append.mpr (Or.inr (List.mem_cons_self _ _))
    · rw [← hfind, hfin]
    · intro q hq
      rw [hdec] at hq
      rw [← hfind, hfin]
      rcases List.mem_append.mp hq with hq2 | hq2
      · exact strLt_asymm (hpre q hq2)
      · rcases List.mem_cons.mp hq2 with rfl | hq3
        · exact strLt_irrefl _
        · exact hpost q hq3

/-- Witness for C2: the row for grouping key `"A"` of the spec example. -/
theorem migration_grouping_law_witness :
    ∃ m ms2, groupMsgs exReplyA.replyId exDB.messages = m :: ms2
      ∧ exReplyA.createdAt = tsOf "T" m
      ∧ (∃ w, w ∈ groupMsgs exReplyA.replyId exDB.messages
          ∧ exReplyA.finishedAt = tsOf "T" w)
      ∧ ∀ q, q ∈ groupMsgs exReplyA.replyId exDB.messages →
          strLt exReplyA.finishedAt (tsOf "T" q) = false :=
  (migration_grouping_law "T" exDB.messages).2.2.1 exReplyA (by decide)

/-- C3 (amended): the reply's role, name and finishing timestamp all come
from one and the same message — the first message of the group in scan
order whose timestamp is the group's lexicographic maximum.  Role and name
are overwritten only under the very condition that extends `finishedAt`
(the new timestamp being strictly greater), not by scan order alone. -/
theorem migration_role_name_first_max (now : String) (msgs : List MessageRow) :
    ∀ r, r ∈ buildReplyMap now msgs →
      ∃ pre w post, groupMsgs r.replyId msgs = pre ++ w :: post
        ∧ r.role = roleOf w ∧ r.name = nameOf w ∧ r.finishedAt = tsOf now w
        ∧ (∀ p, p ∈ pre → strLt (tsOf now p) (tsOf now w) = true)
        ∧ (∀ q, q ∈ post → strLt (tsOf now w) (tsOf now q) = false) := by
  intro r hr
  have hfind : findRec (buildReplyMap now msgs) r.replyId = some r :=
    findRec_self_of_nodup (nodup_replyIds_buildReplyMap now msgs) hr
  rw [findRec_buildReplyMap] at hfind
  rcases hg : groupMsgs r.replyId msgs with _ | ⟨m, ms2⟩
  · rw [hg] at hfind; simp at hfind
  · rw [hg] at hfind
    dsimp only at hfind
    simp only [Option.some.injEq] at hfind
    obtain ⟨pre, w, post, hdec, hfin, hrole, hname, hpre, hpost⟩ :=
      applyGroup_first_max now ms2 m
    exact ⟨pre, w, post, hdec,
      by rw [← hfind, hrole], by rw [← hfind, hname], by rw [← hfind, hfin],
      hpre, hpost⟩

/-- Witness for the amended C3 at the counterexample group. -/
theorem migration_role_name_first_max_witness :
    ∃ pre w post, groupMsgs cexReplyA.replyId [cexMsgA, cexMsgB] = pre ++ w :: post
      ∧ cexReplyA.role = roleOf w ∧ cexReplyA.name = nameOf w
      ∧ cexReplyA.finishedAt = tsOf "T" w
      ∧ (∀ p, p ∈ pre → strLt (tsOf "T" p) (tsOf "T" w) = true)
      ∧ (∀ q, q ∈ post → strLt (tsOf "T" w) (tsOf "T" q) = false) :=
  migration_role_name_first_max "T" [cexMsgA, cexMsgB] cexReplyA (by decide)

/-- C3 counterexample: in group `"A"`, the last message in scan order
(`cexMsgB`, role `"r2"`, name `"n2"`) has the earlier timestamp, and the
migration keeps role `"r1"` and name `"n1"` of the earlier message —
refuting last-write-wins by scan order regardless of timestamp. -/
theorem migration_role_last_write_cex :
    buildReplyMap "T" [cexMsgA, cexMsgB] = [cexReplyA]
    ∧ (groupMsgs "A" [cexMsgA, cexMsgB]).getLast? = some cexMsgB
    ∧ roleOf cexMsgB = "r2" ∧ nameOf cexMsgB = "n2"
    ∧ cexReplyA.role ≠ "r2" ∧ cexReplyA.name ≠ "n2" := by
  refine ⟨by decide, by decide, by decide, by decide, by decide, by decide⟩

/-- C4: after the backfill, the integrity check counts the message rows
whose `replyId` is still NULL or empty; `up` aborts with the fatal
integrity error exactly when that count is positive, and in that case the
NOT NULL alteration and the message foreign key are not applied. -/
theorem migration_integrity_gate (now : String) (db db1 : DB)
    (h : upBackfill now (upCreateTables db) = (db1, none)) :
    (countNullEmpty db1.messages > 0 →
      upRun now db = (db1, some (MigErr.integrity (countNullEmpty db1.messages)))
      ∧ db1.messageReplyIdNotNull = db.messageReplyIdNotNull
      ∧ db1.messageReplyFK = db.messageReplyFK)
    ∧ (countNullEmpty db1.messages = 0 →
      upRun now db
        = ({ db1 with messageReplyIdNotNull := true, messageReplyFK := true }, none)) := by
  obtain ⟨hreps, hmsgs, hhrt, hrfk, hnn, hmfk⟩ :=
    upBackfill_ok now (upCreateTables db) db1 h
  constructor
  · intro hc
    refine ⟨?_, ?_, ?_⟩
    · unfold upRun
      rw [h]
      dsimp only
      rw [if_pos hc]
    · rw [hnn, upCreateTables_notNull]
    · rw [hmfk, upCreateTables_msgFK]
  · intro hc
    unfold upRun
    rw [h]
    dsimp only
    rw [if_neg (by omega)]

/-- Witness for C4: a single message whose primary key is the empty string
leaves a count of one after the backfill, so the gate fires and the schema
flags stay untouched. -/
theorem migration_integrity_gate_witness :
    upRun "T" exDBEmptyId = (exDBEmptyId1, some (MigErr.integrity 1))
    ∧ exDBEmptyId1.messageReplyIdNotNull = exDBEmptyId.messageReplyIdNotNull := by
  have h := (migration_integrity_gate "T" exDBEmptyId exDBEmptyId1 (by decide)).1 (by decide)
  exact ⟨h.1, h.2.1⟩

/-- C5 (amended): re-running the forward migration against a successfully
migrated state cannot fail at the `reply_table` creation step, because that
step passes `ifNotExists`; instead, whenever at least one message row
exists, the re-run aborts at the reply insertion step with a primary-key
conflict. -/
theorem migration_rerun_pk_conflict (now now2 : String) (db db' : DB)
    (h : upRun now db = (db', none)) (hne : db'.messages ≠ []) :
    ∃ k, (upRun now2 db').2 = some (MigErr.pkConflict k) := by
  obtain ⟨hht, hall, hmsgs, hreps⟩ := upRun_ok_facts now db db' h
  rcases hrm : buildReplyMap now2 db'.messages with _ | ⟨r0, rest⟩
  · exact absurd hrm (buildReplyMap_ne_nil now2 hne)
  have hr0mem : r0 ∈ buildReplyMap now2 db'.messages := by
    rw [hrm]; exact List.mem_cons_self _ _
  have hr0id : r0.replyId ∈ replyIds (buildReplyMap now2 db'.messages) :=
    List.mem_map.mpr ⟨r0, hr0mem, rfl⟩
  obtain ⟨m, hm, hkey⟩ :=
    (mem_replyIds_buildReplyMap now2 db'.messages r0.replyId).mp hr0id
  obtain ⟨s, hms, hsne, r, hr1, hr2, hr3⟩ := up_ok_referential now db db' h m hm
  have hhas : hasReplyId m = true := hall m hm
  have hkm : keyOf m = s := by simp [keyOf, hhas, hms]
  have hin : r0.replyId ∈ replyIds db'.replies := by
    refine List.mem_map.mpr ⟨r, hr2, ?_⟩
    rw [hr3, ← hkm, hkey]
  refine ⟨r0.replyId, upRun_snd_err now2 db' ?_⟩
  unfold upBackfill
  rw [upCreateTables_messages db', upCreateTables_replies_of_has db' hht, hrm,
    insertAll_conflict_head db'.replies r0 rest hin]

/-- Witness for the amended C5: the single-message example migrated once. -/
theorem migration_rerun_pk_conflict_witness :
    ∃ k, (upRun "T" (upRun "T" exDB1).1).2 = some (MigErr.pkConflict k) :=
  migration_rerun_pk_conflict "T" "T" exDB1 (upRun "T" exDB1).1 (by decide) (by decide)

/-- C5 counterexample: on the migrated single-message state, the re-run of
`up` fails with a primary-key conflict from the reply insertion, not with a
table-already-exists error — `createTable` is called with `ifNotExists`. -/
theorem migration_rerun_cex :
    (upRun "T" exDB1).2 = none
    ∧ (upRun "T" (upRun "T" exDB1).1).2 = some (MigErr.pkConflict "1")
    ∧ (upRun "T" (upRun "T" exDB1).1).2 ≠ some MigErr.tableExists := by
  refine ⟨by decide, by decide, by decide⟩

end Studio
